import Mathlib

/-
Verification of the commit-hook dispatcher in
`sqlalchemy_commithooks/commit_mixin.py`.

The embedding models the per-session bookkeeping (`_CommitObjects`), the
mutation-event writers (`SessionMixin._add_{before,after,failed}_commit_object`),
the dispatch algorithm (`SessionMixin._do_commits` and the three
`_do_{before,after,failed}_commits` drivers), the lifecycle event handlers
(`before_commit`, `after_commit`, `after_failed_commit` registered in
`SessionMixin._register_commit_hooks`), the scoped-query shim
(`_tmp_transaction`), and the mutation-event bridge (`_build_add_func`).

Entities are identified by a natural number (Python object identity).  A
Python `dict`/`defaultdict(set)` bucket is an insertion-ordered association
list from entity to a duplicate-free list of mutation kinds.  A hook body is
modelled by its observable behaviour: the `_add_*_commit_object` writes its
side effects trigger, and whether it raises.  Exceptions are modelled by a
Bool flag threaded through results (`true` = an exception escaped).
-/

namespace CommitHooks

/-- Mutation kinds: Python's `insert` / `update` / `delete` actions. -/
inductive Action
  | insert
  | update
  | delete
deriving DecidableEq, Repr

/-- Lifecycle phases: the `before` / `after` / `failed` buckets and hook families. -/
inductive Phase
  | before
  | after
  | failed
deriving DecidableEq, Repr

/-- Python object identity of an entity. -/
abbrev Entity := Nat

/-- One bucket of `_CommitObjects`: `defaultdict(set)` keyed by entity in
insertion order, each value a set of mutation kinds (duplicate-free list). -/
abbrev Bucket := List (Entity × List Action)

/-- Adding to a bucket: `bucket[obj].add(action)` on a `defaultdict(set)` —
if the entity is already a key, add the action to its set (deduplicated);
otherwise append a new entry at the end (dict insertion order). -/
def bucketAdd : Bucket → Entity → Action → Bucket
  | [], e, a => [(e, [a])]
  | (e0, s0) :: rest, e, a =>
    if e = e0 then (e0, if a ∈ s0 then s0 else s0 ++ [a]) :: rest
    else (e0, s0) :: bucketAdd rest e a

/-- Reading a bucket: `objects[obj]` on a `defaultdict(set)` for a present key
(the dispatch loop only reads keys it is iterating). -/
def bucketFind (b : Bucket) (e : Entity) : List Action :=
  match b.lookup e with
  | some s0 => s0
  | none => []

/-- The `_CommitObjects` structure: a re-entrancy lock flag plus the three
phase buckets, as created by `_CommitObjects.__init__`. -/
structure CommitObjects where
  lock : Bool
  before : Bucket
  after : Bucket
  failed : Bucket
deriving DecidableEq, Repr

/-- The freshly constructed `_CommitObjects()`: unlocked, all buckets empty. -/
def CommitObjects.init : CommitObjects :=
  { lock := false, before := [], after := [], failed := [] }

/-- Select the bucket named by a phase (`getattr(self._commit_objects, time)`). -/
def CommitObjects.bucket (c : CommitObjects) : Phase → Bucket
  | .before => c.before
  | .after => c.after
  | .failed => c.failed

/-- Replace the bucket named by a phase (used to model `objects.clear()`). -/
def CommitObjects.setBucket (c : CommitObjects) : Phase → Bucket → CommitObjects
  | .before, b => { c with before := b }
  | .after, b => { c with after := b }
  | .failed, b => { c with failed := b }

/-- The per-session state of `SessionMixin`: its `_commit_objects`, the
`_after_failed_commit_active` outcome-pending flag, and the session's
`transaction` attribute (a handle id; `none` models Python `None`). -/
structure SessionState where
  commit_objects : CommitObjects
  after_failed_commit_active : Bool
  transaction : Option Nat
deriving DecidableEq, Repr

/-- The state set up by `SessionMixin.__init__` (class attribute
`transaction = None`). -/
def SessionState.init : SessionState :=
  { commit_objects := CommitObjects.init
    after_failed_commit_active := false
    transaction := none }

/-- `SessionMixin._add_before_commit_object`: record (obj, action) in the
`before` bucket unless the lock is set, in which case do nothing. -/
def _add_before_commit_object (s : SessionState) (obj : Entity) (action : Action) :
    SessionState :=
  if s.commit_objects.lock then s
  else { s with commit_objects :=
          { s.commit_objects with before := bucketAdd s.commit_objects.before obj action } }

/-- `SessionMixin._add_after_commit_object`: record (obj, action) in the
`after` bucket unless the lock is set. -/
def _add_after_commit_object (s : SessionState) (obj : Entity) (action : Action) :
    SessionState :=
  if s.commit_objects.lock then s
  else { s with commit_objects :=
          { s.commit_objects with after := bucketAdd s.commit_objects.after obj action } }

/-- `SessionMixin._add_failed_commit_object`: record (obj, action) in the
`failed` bucket unless the lock is set. -/
def _add_failed_commit_object (s : SessionState) (obj : Entity) (action : Action) :
    SessionState :=
  if s.commit_objects.lock then s
  else { s with commit_objects :=
          { s.commit_objects with failed := bucketAdd s.commit_objects.failed obj action } }

/-- A single hook invocation as observed by the dispatcher: phase, entity and
mutation kind determine the method name `{phase}_commit_from_{action}`. -/
structure HookCall where
  phase : Phase
  entity : Entity
  action : Action
deriving DecidableEq, Repr

/-- Observable behaviour of one hook body: the `_add_*_commit_object` writes
its side effects trigger (in order), then whether it raises on the way out. -/
structure HookEffect where
  writes : List (Phase × Entity × Action)
  raises : Bool

/-- Behaviour of every entity's hook methods. -/
abbrev HookSpec := Phase → Entity → Action → HookEffect

/-- A spec whose hooks never raise. -/
def noRaise (spec : HookSpec) : Prop := ∀ p e a, (spec p e a).raises = false

/-- Route one attempted write to the session-storage method the mutation
listener would call for its phase. -/
def applyWrite (s : SessionState) : Phase × Entity × Action → SessionState
  | (.before, e, a) => _add_before_commit_object s e a
  | (.after, e, a) => _add_after_commit_object s e a
  | (.failed, e, a) => _add_failed_commit_object s e a

/-- Apply a list of attempted writes in order. -/
def runWrites : SessionState → List (Phase × Entity × Action) → SessionState
  | s, [] => s
  | s, w :: ws => runWrites (applyWrite s w) ws

/-- Inner loop of `_do_commits` for one mutation kind: walk the listed entity
keys in order; invoke the `{time}_commit_from_{kind}` hook of every entity
whose kind-set contains this kind; a raising hook aborts the walk.  Returns
(final state, accumulated invocation trace, whether an exception escaped). -/
def dispatchKind (spec : HookSpec) (p : Phase) (a : Action) :
    List Entity → SessionState → List HookCall → SessionState × List HookCall × Bool
  | [], s, tr => (s, tr, false)
  | e :: rest, s, tr =>
    if a ∈ bucketFind (s.commit_objects.bucket p) e then
      let eff := spec p e a
      let s1 := runWrites s eff.writes
      let tr1 := tr ++ [⟨p, e, a⟩]
      if eff.raises then (s1, tr1, true)
      else dispatchKind spec p a rest s1 tr1
    else dispatchKind spec p a rest s tr

/-- Sequence two stages, propagating an uncaught exception from the first
(models Python's exception propagation between statements). -/
def passAbort (r : SessionState × List HookCall × Bool)
    (k : SessionState → List HookCall → SessionState × List HookCall × Bool) :
    SessionState × List HookCall × Bool :=
  match r with
  | (s, tr, true) => (s, tr, true)
  | (s, tr, false) => k s tr

/-- `SessionMixin._do_commits`: for each kind in the fixed order insert,
update, delete, walk the bucket's keys and invoke matching hooks; after all
three passes, clear the bucket.  An uncaught hook exception skips everything
that remains, including the final `objects.clear()`. -/
def _do_commits (spec : HookSpec) (time : Phase) (s : SessionState) :
    SessionState × List HookCall × Bool :=
  passAbort (dispatchKind spec time .insert ((s.commit_objects.bucket time).map Prod.fst) s [])
    (fun s1 t1 =>
      passAbort (dispatchKind spec time .update ((s1.commit_objects.bucket time).map Prod.fst) s1 t1)
        (fun s2 t2 =>
          passAbort (dispatchKind spec time .delete ((s2.commit_objects.bucket time).map Prod.fst) s2 t2)
            (fun s3 t3 =>
              ({ s3 with commit_objects := s3.commit_objects.setBucket time [] }, t3, false))))

/-- The `_tmp_transaction` context manager: save `session.transaction`,
install a fresh `SessionTransaction` handle, run the body; on normal exit
restore the saved handle.  The generator has no try/finally, so when the body
raises, the statement after the yield never runs and nothing is restored. -/
def _tmp_transaction {α : Type} (freshTx : Nat)
    (body : SessionState → SessionState × α × Bool) (s : SessionState) :
    SessionState × α × Bool :=
  let current_transaction := s.transaction
  match body { s with transaction := some freshTx } with
  | (s1, out, true) => (s1, out, true)
  | (s1, out, false) => ({ s1 with transaction := current_transaction }, out, false)

/-- `SessionMixin._do_before_commits`: set the lock, then dispatch `before`. -/
def _do_before_commits (spec : HookSpec) (s : SessionState) :
    SessionState × List HookCall × Bool :=
  let s1 := { s with commit_objects := { s.commit_objects with lock := true } }
  _do_commits spec .before s1

/-- `SessionMixin._do_after_commits`: dispatch `after` inside
`_tmp_transaction`, then clear the `failed` bucket and release the lock.
A hook exception propagates and skips the clearing and the unlock. -/
def _do_after_commits (spec : HookSpec) (freshTx : Nat) (s : SessionState) :
    SessionState × List HookCall × Bool :=
  passAbort (_tmp_transaction freshTx (fun s1 => _do_commits spec .after s1) s)
    (fun s2 tr =>
      let s3 := { s2 with commit_objects := { s2.commit_objects with failed := [] } }
      ({ s3 with commit_objects := { s3.commit_objects with lock := false } }, tr, false))

/-- `SessionMixin._do_failed_commits`: dispatch `failed` inside
`_tmp_transaction`, then clear the `after` bucket and release the lock. -/
def _do_failed_commits (spec : HookSpec) (freshTx : Nat) (s : SessionState) :
    SessionState × List HookCall × Bool :=
  passAbort (_tmp_transaction freshTx (fun s1 => _do_commits spec .failed s1) s)
    (fun s2 tr =>
      let s3 := { s2 with commit_objects := { s2.commit_objects with after := [] } }
      ({ s3 with commit_objects := { s3.commit_objects with lock := false } }, tr, false))

/-- The `before_commit` event handler: `session.flush()` delivers the pending
mutation events of this cycle to the listeners (modelled as the `pending`
write list), then `_after_failed_commit_active = True`, then
`_do_before_commits`. -/
def before_commit (spec : HookSpec) (pending : List (Phase × Entity × Action))
    (s : SessionState) : SessionState × List HookCall × Bool :=
  let s1 := runWrites s pending
  let s2 := { s1 with after_failed_commit_active := true }
  _do_before_commits spec s2

/-- The `after_commit` event handler: clear `_after_failed_commit_active`,
then `_do_after_commits`. -/
def after_commit (spec : HookSpec) (freshTx : Nat) (s : SessionState) :
    SessionState × List HookCall × Bool :=
  let s1 := { s with after_failed_commit_active := false }
  _do_after_commits spec freshTx s1

/-- The `after_soft_rollback` event handler (`after_failed_commit`): run
`_do_failed_commits` only if `_after_failed_commit_active`; then clear the
flag (skipped when the dispatch raised, as the assignment follows the call). -/
def after_failed_commit (spec : HookSpec) (freshTx : Nat) (s : SessionState) :
    SessionState × List HookCall × Bool :=
  if s.after_failed_commit_active then
    passAbort (_do_failed_commits spec freshTx s)
      (fun s1 tr => ({ s1 with after_failed_commit_active := false }, tr, false))
  else
    ({ s with after_failed_commit_active := false }, [], false)

/-- Session lifecycle signals delivered by the engine. -/
inductive Signal
  | beforeCommit (pending : List (Phase × Entity × Action))
  | afterCommit (freshTx : Nat)
  | afterSoftRollback (freshTx : Nat)

/-- Run one signal's handler. -/
def stepSignal (spec : HookSpec) (s : SessionState) :
    Signal → SessionState × List HookCall × Bool
  | .beforeCommit pending => before_commit spec pending s
  | .afterCommit tx => after_commit spec tx s
  | .afterSoftRollback tx => after_failed_commit spec tx s

/-- Run a sequence of signals; `none` if some handler let an exception escape. -/
def runSignals (spec : HookSpec) : List Signal → SessionState → Option SessionState
  | [], s => some s
  | sig :: rest, s =>
    match stepSignal spec s sig with
    | (_, _, true) => none
    | (s1, _, false) => runSignals spec rest s1

/-- A session state reachable from a fresh session by exception-free handling
of a sequence of lifecycle signals. -/
def Reachable (spec : HookSpec) (s : SessionState) : Prop :=
  ∃ sigs, runSignals spec sigs SessionState.init = some s

/-- Python-level errors relevant to this library: an `AttributeError` from a
failed attribute access, a `TypeError` from calling a non-callable value, or
an explicitly raised exception identified by its class name. -/
inductive PyErr
  | attributeError
  | typeError
  | raised (excName : String)
deriving DecidableEq, Repr

/-- The Python values the default hook bodies handle: the builtin
`NotImplemented` singleton, an exception class (such as
`NotImplementedError`), a string, and an exception instance. -/
inductive PyVal
  | notImplementedSingleton
  | excClass (excName : String)
  | str (s : String)
  | excVal (excName : String) (msg : String)
deriving DecidableEq, Repr

/-- Python call semantics restricted to these values: an exception class is
callable and constructs an exception instance from its message; every other
value here (in particular the `NotImplemented` singleton) is not callable,
so calling it raises `TypeError`. -/
def pyCall (f : PyVal) (arg : PyVal) : Except PyErr PyVal :=
  match f with
  | .excClass n =>
    .ok (.excVal n (match arg with | .str m => m | _ => ""))
  | _ => .error .typeError

/-- Python `raise expr`: if evaluating `expr` itself raises, that exception
wins; raising an exception instance raises it; raising anything else is a
`TypeError`. -/
def pyRaise (v : Except PyErr PyVal) : Except PyErr Unit :=
  match v with
  | .error e => .error e
  | .ok (.excVal n _) => .error (.raised n)
  | .ok _ => .error .typeError

/-- Body shared by all nine default `CommitMixin` hook methods
(`before_commit_from_insert` through `failed_commit_from_delete`):
`raise NotImplemented(self.__err)` with `__err = 'Override to add hooks'`.
The phase and kind select which method carries this body; all carry it
verbatim. -/
def default_hook (_p : Phase) (_a : Action) : Except PyErr Unit :=
  pyRaise (pyCall PyVal.notImplementedSingleton (PyVal.str "Override to add hooks"))

/-- What `object_session(object)` resolves to for the mutated entity: no
session at all (Python `None`), a session without the tracking mixin, or a
tracking `SessionMixin` session in a given state. -/
inductive OwningSession
  | noSession
  | plain
  | mixin (s : SessionState)

/-- The `add_object` listener built by `_build_add_func(time, action)`:
`getattr(object_session(object), '_add_{time}_commit_object')(object, action)`.
`getattr` on `None` raises `AttributeError`; so does `getattr` on a session
that lacks the mixin's method.  On a tracking session it performs the add
(whose own body never raises). -/
def add_object (time : Phase) (action : Action) (sess : OwningSession)
    (obj : Entity) : Except PyErr SessionState :=
  match sess with
  | .noSession => .error .attributeError
  | .plain => .error .attributeError
  | .mixin s =>
    .ok (match time with
      | .before => _add_before_commit_object s obj action
      | .after => _add_after_commit_object s obj action
      | .failed => _add_failed_commit_object s obj action)

/-- Hook calls generated for one mutation kind from the bucket's entry list:
the entries whose kind-set contains the kind, in insertion order. -/
def bucketCalls (p : Phase) (a : Action) (b : Bucket) : List HookCall :=
  (b.filter (fun x => a ∈ x.2)).map (fun x => ⟨p, x.1, a⟩)

/-- The complete dispatch trace of one bucket: the insert pass, then the
update pass, then the delete pass. -/
def dispatchCalls (p : Phase) (b : Bucket) : List HookCall :=
  bucketCalls p .insert b ++ bucketCalls p .update b ++ bucketCalls p .delete b

/-- The same trace computed the way the loop does: filter the key list by
membership of the kind in the live kind-set. -/
def keysCalls (p : Phase) (a : Action) (b : Bucket) (keys : List Entity) :
    List HookCall :=
  (keys.filter (fun e => a ∈ bucketFind b e)).map (fun e => ⟨p, e, a⟩)

/-- A bucket is well formed when its keys are pairwise distinct, as the keys
of a Python dict always are. -/
def WFBucket (b : Bucket) : Prop := (b.map Prod.fst).Nodup

/-- Invariant of exception-free sessions: the outcome-pending flag and the
lock always agree, and every bucket has distinct keys. -/
def WFSession (s : SessionState) : Prop :=
  s.after_failed_commit_active = s.commit_objects.lock ∧
  WFBucket s.commit_objects.before ∧
  WFBucket s.commit_objects.after ∧
  WFBucket s.commit_objects.failed

/-- Key-distinctness of all three buckets, without the flag condition. -/
def WFBuckets (s : SessionState) : Prop :=
  WFBucket s.commit_objects.before ∧ WFBucket s.commit_objects.after ∧
    WFBucket s.commit_objects.failed

/-- A session state mid-cycle as the dispatch loop sees it: lock held,
outcome pending, the given bucket installed for the given phase and the other
buckets empty. -/
def mkDispatchState (p : Phase) (b : Bucket) : SessionState :=
  { commit_objects :=
      CommitObjects.setBucket
        { lock := true, before := [], after := [], failed := [] } p b
    after_failed_commit_active := true
    transaction := none }

/-- Repeated recording: apply `bucketAdd` with the same (entity, kind) pair
n times. -/
def addN : Nat → Bucket → Entity → Action → Bucket
  | 0, b, _, _ => b
  | n + 1, b, e, a => bucketAdd (addN n b e a) e a

/-- The flush events of one insert-tracked entity whose type overrides hooks
in all three phases: each phase's listener records (e, insert) into its
bucket. -/
def insertPending (e : Entity) : List (Phase × Entity × Action) :=
  [(Phase.before, e, Action.insert), (Phase.after, e, Action.insert),
   (Phase.failed, e, Action.insert)]

/-- The hook-invocation trace of one successful commit cycle of a single
insert-tracked entity: the pre-commit signal's dispatch followed by the
post-commit signal's dispatch, from a fresh session. -/
def c3Cycle (spec : HookSpec) (tx : Nat) (e : Entity) : List HookCall :=
  (before_commit spec (insertPending e) SessionState.init).2.1 ++
    (after_commit spec tx
      (before_commit spec (insertPending e) SessionState.init).1).2.1

/-- Hooks that do nothing and never raise. -/
def quietSpec : HookSpec := fun _ _ _ => { writes := [], raises := false }

/-- Hooks that attempt to record (99, update) into the after bucket on every
invocation, and never raise. -/
def chattySpec : HookSpec :=
  fun _ _ _ => { writes := [(Phase.after, 99, Action.update)], raises := false }

/-- Hooks of entity 1 raise; all other entities' hooks are quiet. -/
def raisingSpec : HookSpec :=
  fun _ e _ => { writes := [], raises := e == 1 }

/-- A locked mid-cycle session with one entity tracked for update in the
after bucket. -/
def lockedState : SessionState :=
  { commit_objects :=
      { lock := true, before := [], after := [(3, [Action.update])], failed := [] }
    after_failed_commit_active := true
    transaction := some 5 }

/-- The session state reached from a fresh session by the pre-commit signal
with one entity tracked for insert in the failed bucket. -/
def c4State : SessionState :=
  { commit_objects :=
      { lock := true, before := [], after := [], failed := [(3, [Action.insert])] }
    after_failed_commit_active := true
    transaction := none }

/-- A locked mid-cycle session whose before bucket tracks entities 1 and 2
for insert, in that insertion order. -/
def c5State : SessionState :=
  { commit_objects :=
      { lock := true
        before := [(1, [Action.insert]), (2, [Action.insert])]
        after := []
        failed := [] }
    after_failed_commit_active := true
    transaction := none }

/-- A `_tmp_transaction` body that raises without touching the state. -/
def c8Body : SessionState → SessionState × Unit × Bool := fun s => (s, (), true)

/-- A `_tmp_transaction` body that completes normally without touching the
state. -/
def c8OkBody : SessionState → SessionState × Unit × Bool := fun s => (s, (), false)

/-- A session whose transaction attribute holds handle 0. -/
def c8State : SessionState :=
  { commit_objects := CommitObjects.init
    after_failed_commit_active := false
    transaction := some 0 }

theorem add_before_locked (s : SessionState) (e : Entity) (a : Action)
    (h : s.commit_objects.lock = true) : _add_before_commit_object s e a = s := by
  simp [_add_before_commit_object, h]

theorem add_after_locked (s : SessionState) (e : Entity) (a : Action)
    (h : s.commit_objects.lock = true) : _add_after_commit_object s e a = s := by
  simp [_add_after_commit_object, h]

theorem add_failed_locked (s : SessionState) (e : Entity) (a : Action)
    (h : s.commit_objects.lock = true) : _add_failed_commit_object s e a = s := by
  simp [_add_failed_commit_object, h]

theorem applyWrite_locked (s : SessionState) (w : Phase × Entity × Action)
    (h : s.commit_objects.lock = true) : applyWrite s w = s := by
  obtain ⟨p, e, a⟩ := w
  cases p
  · exact add_before_locked s e a h
  · exact add_after_locked s e a h
  · exact add_failed_locked s e a h

theorem runWrites_locked (ws : List (Phase × Entity × Action)) (s : SessionState)
    (h : s.commit_objects.lock = true) : runWrites s ws = s := by
  induction ws with
  | nil => rfl
  | cons w ws ih => rw [runWrites, applyWrite_locked s w h]; exact ih

theorem bucketFind_cons (e0 : Entity) (s0 : List Action) (rest : Bucket) (e : Entity) :
    bucketFind ((e0, s0) :: rest) e = if e = e0 then s0 else bucketFind rest e := by
  by_cases hc : e = e0
  · subst hc; simp [bucketFind, List.lookup]
  · simp [bucketFind, List.lookup, hc, beq_false_of_ne hc]

theorem keysCalls_congr (p : Phase) (a : Action) (b1 b2 : Bucket)
    (keys : List Entity) (h : ∀ e ∈ keys, bucketFind b1 e = bucketFind b2 e) :
    keysCalls p a b1 keys = keysCalls p a b2 keys := by
  induction keys with
  | nil => rfl
  | cons e rest ih =>
    have he := h e (List.mem_cons_self e rest)
    have hr : ∀ e2 ∈ rest, bucketFind b1 e2 = bucketFind b2 e2 :=
      fun e2 hm => h e2 (List.mem_cons_of_mem e hm)
    simp only [keysCalls, List.filter_cons] at *
    rw [he]
    by_cases hm : a ∈ bucketFind b2 e
    · simp [hm, ih hr, keysCalls]
    · simp [hm, ih hr, keysCalls]

theorem keysCalls_self (p : Phase) (a : Action) (b : Bucket) (hb : WFBucket b) :
    keysCalls p a b (b.map Prod.fst) = bucketCalls p a b := by
  induction b with
  | nil => rfl
  | cons x rest ih =>
    obtain ⟨e0, s0⟩ := x
    have hnd : e0 ∉ rest.map Prod.fst ∧ (rest.map Prod.fst).Nodup := by
      simpa [WFBucket, List.nodup_cons] using hb
    have hcongr : keysCalls p a ((e0, s0) :: rest) (rest.map Prod.fst)
        = keysCalls p a rest (rest.map Prod.fst) := by
      refine keysCalls_congr p a _ _ _ (fun e hm => ?_)
      have hne : e ≠ e0 := fun hcontra => hnd.1 (hcontra ▸ hm)
      rw [bucketFind_cons, if_neg hne]
    have hfind : bucketFind ((e0, s0) :: rest) e0 = s0 := by
      rw [bucketFind_cons, if_pos rfl]
    have ihr := ih hnd.2
    by_cases hm : a ∈ s0
    · simp only [List.map_cons, keysCalls, List.filter_cons, hfind, hm,
        if_true, List.map_cons, bucketCalls] at *
      simpa [bucketCalls, keysCalls, hcongr, hfind, hm] using ihr
    · simp only [List.map_cons] at *
      rw [show keysCalls p a ((e0, s0) :: rest) (e0 :: rest.map Prod.fst)
            = keysCalls p a ((e0, s0) :: rest) (rest.map Prod.fst) from ?_]
      · rw [hcongr, ihr]
        simp [bucketCalls, List.filter_cons, hm]
      · simp [keysCalls, List.filter_cons, hfind, hm]

theorem dispatchKind_noraise (spec : HookSpec) (p : Phase) (a : Action)
    (hnr : noRaise spec) (s : SessionState) (h : s.commit_objects.lock = true) :
    ∀ (keys : List Entity) (tr : List HookCall),
      dispatchKind spec p a keys s tr =
        (s, tr ++ keysCalls p a (s.commit_objects.bucket p) keys, false) := by
  intro keys
  induction keys with
  | nil => intro tr; simp [dispatchKind, keysCalls]
  | cons e rest ih =>
    intro tr
    by_cases hc : a ∈ bucketFind (s.commit_objects.bucket p) e
    · have hr : (spec p e a).raises = false := hnr p e a
      have hw : runWrites s (spec p e a).writes = s := runWrites_locked _ s h
      simp [dispatchKind, hc, hr, hw, ih, keysCalls, List.filter_cons]
    · simp [dispatchKind, hc, ih, keysCalls, List.filter_cons]

theorem dispatchKind_locked (spec : HookSpec) (p : Phase) (a : Action)
    (s : SessionState) (h : s.commit_objects.lock = true) :
    ∀ (keys : List Entity) (tr : List HookCall),
      (dispatchKind spec p a keys s tr).1 = s ∧
      (∃ rest, tr ++ keysCalls p a (s.commit_objects.bucket p) keys =
        (dispatchKind spec p a keys s tr).2.1 ++ rest) ∧
      ((dispatchKind spec p a keys s tr).2.2 = false →
        (dispatchKind spec p a keys s tr).2.1 =
          tr ++ keysCalls p a (s.commit_objects.bucket p) keys) := by
  intro keys
  induction keys with
  | nil =>
    intro tr
    refine ⟨rfl, ⟨[], by simp [dispatchKind, keysCalls]⟩, fun _ => by simp [dispatchKind, keysCalls]⟩
  | cons e rest ih =>
    intro tr
    by_cases hc : a ∈ bucketFind (s.commit_objects.bucket p) e
    · have hw : runWrites s (spec p e a).writes = s := runWrites_locked _ s h
      have hK : keysCalls p a (s.commit_objects.bucket p) (e :: rest) =
          ⟨p, e, a⟩ :: keysCalls p a (s.commit_objects.bucket p) rest := by
        simp [keysCalls, List.filter_cons, hc]
      by_cases hraise : (spec p e a).raises = true
      · refine ⟨?_, ?_, ?_⟩
        · simp [dispatchKind, hc, hraise, hw]
        · refine ⟨keysCalls p a (s.commit_objects.bucket p) rest, ?_⟩
          simp [dispatchKind, hc, hraise, hw, hK]
        · intro hfalse
          exfalso
          have : (dispatchKind spec p a (e :: rest) s tr).2.2 = true := by
            simp [dispatchKind, hc, hraise, hw]
          rw [hfalse] at this
          exact Bool.false_ne_true this
      · have hr : (spec p e a).raises = false := by
          cases hb : (spec p e a).raises
          · rfl
          · exact absurd hb hraise
        have hstep : dispatchKind spec p a (e :: rest) s tr =
            dispatchKind spec p a rest s (tr ++ [⟨p, e, a⟩]) := by
          simp [dispatchKind, hc, hr, hw]
        obtain ⟨ih1, ⟨restL, ih2⟩, ih3⟩ := ih (tr ++ [⟨p, e, a⟩])
        refine ⟨by rw [hstep]; exact ih1, ?_, ?_⟩
        · refine ⟨restL, ?_⟩
          rw [hstep, ← ih2, hK]
          simp
        · intro hfalse
          rw [hstep] at hfalse ⊢
          rw [ih3 hfalse, hK]
          simp
    · have hK : keysCalls p a (s.commit_objects.bucket p) (e :: rest) =
          keysCalls p a (s.commit_objects.bucket p) rest := by
        simp [keysCalls, List.filter_cons, hc]
      have hstep : dispatchKind spec p a (e :: rest) s tr =
          dispatchKind spec p a rest s tr := by
        simp [dispatchKind, hc]
      rw [hstep, hK]
      exact ih tr

theorem passAbort_eq (r : SessionState × List HookCall × Bool)
    (k : SessionState → List HookCall → SessionState × List HookCall × Bool) :
    passAbort r k = if r.2.2 = true then (r.1, r.2.1, true) else k r.1 r.2.1 := by
  rcases r with ⟨s, tr, x⟩
  cases x <;> simp [passAbort]

theorem do_commits_noraise (spec : HookSpec) (time : Phase) (s : SessionState)
    (hnr : noRaise spec) (h : s.commit_objects.lock = true) :
    _do_commits spec time s =
      ({ s with commit_objects := s.commit_objects.setBucket time [] },
       keysCalls time .insert (s.commit_objects.bucket time)
           ((s.commit_objects.bucket time).map Prod.fst) ++
         (keysCalls time .update (s.commit_objects.bucket time)
             ((s.commit_objects.bucket time).map Prod.fst) ++
           keysCalls time .delete (s.commit_objects.bucket time)
             ((s.commit_objects.bucket time).map Prod.fst)),
       false) := by
  simp only [_do_commits, dispatchKind_noraise spec time .insert hnr s h,
    dispatchKind_noraise spec time .update hnr s h,
    dispatchKind_noraise spec time .delete hnr s h,
    passAbort, List.nil_append, List.append_assoc]

theorem do_commits_locked (spec : HookSpec) (time : Phase) (s : SessionState)
    (h : s.commit_objects.lock = true) :
    ((_do_commits spec time s).2.2 = true → (_do_commits spec time s).1 = s) ∧
    ((_do_commits spec time s).2.2 = false →
      (_do_commits spec time s).1 =
        { s with commit_objects := s.commit_objects.setBucket time [] }) ∧
    (∃ rest,
      keysCalls time .insert (s.commit_objects.bucket time)
          ((s.commit_objects.bucket time).map Prod.fst) ++
        (keysCalls time .update (s.commit_objects.bucket time)
            ((s.commit_objects.bucket time).map Prod.fst) ++
          keysCalls time .delete (s.commit_objects.bucket time)
            ((s.commit_objects.bucket time).map Prod.fst)) =
      (_do_commits spec time s).2.1 ++ rest) := by
  obtain ⟨Hi1, Hi2, Hi3⟩ :=
    dispatchKind_locked spec time .insert s h
      ((s.commit_objects.bucket time).map Prod.fst) []
  simp only [List.nil_append] at Hi2 Hi3
  rw [_do_commits, passAbort_eq]
  by_cases hx1 :
      (dispatchKind spec time .insert ((s.commit_objects.bucket time).map Prod.fst) s []).2.2 = true
  · rw [if_pos hx1]
    obtain ⟨r1, hr1⟩ := Hi2
    refine ⟨fun _ => Hi1, fun hcontra => by simp at hcontra, ?_⟩
    refine ⟨r1 ++ (keysCalls time .update (s.commit_objects.bucket time)
        ((s.commit_objects.bucket time).map Prod.fst) ++
      keysCalls time .delete (s.commit_objects.bucket time)
        ((s.commit_objects.bucket time).map Prod.fst)), ?_⟩
    rw [hr1]
    simp [List.append_assoc]
  · rw [if_neg hx1]
    have hx1f :
        (dispatchKind spec time .insert ((s.commit_objects.bucket time).map Prod.fst) s []).2.2
          = false := by
      cases hb : (dispatchKind spec time .insert
          ((s.commit_objects.bucket time).map Prod.fst) s []).2.2
      · rfl
      · exact absurd hb hx1
    rw [Hi1, Hi3 hx1f]
    obtain ⟨Hu1, Hu2, Hu3⟩ :=
      dispatchKind_locked spec time .update s h
        ((s.commit_objects.bucket time).map Prod.fst)
        (keysCalls time .insert (s.commit_objects.bucket time)
          ((s.commit_objects.bucket time).map Prod.fst))
    rw [passAbort_eq]
    by_cases hx2 :
        (dispatchKind spec time .update ((s.commit_objects.bucket time).map Prod.fst) s
          (keysCalls time .insert (s.commit_objects.bucket time)
            ((s.commit_objects.bucket time).map Prod.fst))).2.2 = true
    · rw [if_pos hx2]
      obtain ⟨r2, hr2⟩ := Hu2
      refine ⟨fun _ => Hu1, fun hcontra => by simp at hcontra, ?_⟩
      refine ⟨r2 ++ keysCalls time .delete (s.commit_objects.bucket time)
        ((s.commit_objects.bucket time).map Prod.fst), ?_⟩
      rw [← List.append_assoc, hr2]
      simp [List.append_assoc]
    · rw [if_neg hx2]
      have hx2f :
          (dispatchKind spec time .update ((s.commit_objects.bucket time).map Prod.fst) s
            (keysCalls time .insert (s.commit_objects.bucket time)
              ((s.commit_objects.bucket time).map Prod.fst))).2.2 = false := by
        cases hb : (dispatchKind spec time .update
            ((s.commit_objects.bucket time).map Prod.fst) s
            (keysCalls time .insert (s.commit_objects.bucket time)
              ((s.commit_objects.bucket time).map Prod.fst))).2.2
        · rfl
        · exact absurd hb hx2
      rw [Hu1, Hu3 hx2f]
      obtain ⟨Hd1, Hd2, Hd3⟩ :=
        dispatchKind_locked spec time .delete s h
          ((s.commit_objects.bucket time).map Prod.fst)
          (keysCalls time .insert (s.commit_objects.bucket time)
              ((s.commit_objects.bucket time).map Prod.fst) ++
            keysCalls time .update (s.commit_objects.bucket time)
              ((s.commit_objects.bucket time).map Prod.fst))
      rw [passAbort_eq]
      by_cases hx3 :
          (dispatchKind spec time .delete ((s.commit_objects.bucket time).map Prod.fst) s
            (keysCalls time .insert (s.commit_objects.bucket time)
                ((s.commit_objects.bucket time).map Prod.fst) ++
              keysCalls time .update (s.commit_objects.bucket time)
                ((s.commit_objects.bucket time).map Prod.fst))).2.2 = true
      · rw [if_pos hx3]
        obtain ⟨r3, hr3⟩ := Hd2
        refine ⟨fun _ => Hd1, fun hcontra => by simp at hcontra, ?_⟩
        refine ⟨r3, ?_⟩
        rw [← hr3]
        simp [List.append_assoc]
      · rw [if_neg hx3]
        have hx3f :
            (dispatchKind spec time .delete ((s.commit_objects.bucket time).map Prod.fst) s
              (keysCalls time .insert (s.commit_objects.bucket time)
                  ((s.commit_objects.bucket time).map Prod.fst) ++
                keysCalls time .update (s.commit_objects.bucket time)
                  ((s.commit_objects.bucket time).map Prod.fst))).2.2 = false := by
          cases hb : (dispatchKind spec time .delete
              ((s.commit_objects.bucket time).map Prod.fst) s
              (keysCalls time .insert (s.commit_objects.bucket time)
                  ((s.commit_objects.bucket time).map Prod.fst) ++
                keysCalls time .update (s.commit_objects.bucket time)
                  ((s.commit_objects.bucket time).map Prod.fst))).2.2
          · rfl
          · exact absurd hb hx3
        rw [Hd1, Hd3 hx3f]
        refine ⟨fun hcontra => by simp at hcontra, fun _ => rfl, ⟨[], ?_⟩⟩
        simp [List.append_assoc]

theorem tmp_transaction_ok {α : Type} (tx : Nat)
    (body : SessionState → SessionState × α × Bool) (s : SessionState)
    (h : (body { s with transaction := some tx }).2.2 = false) :
    _tmp_transaction tx body s =
      ({ (body { s with transaction := some tx }).1 with transaction := s.transaction },
       (body { s with transaction := some tx }).2.1, false) := by
  unfold _tmp_transaction
  rcases hb : body { s with transaction := some tx } with ⟨s1, out, x⟩
  rw [hb] at h
  have hx : x = false := h
  subst hx
  rfl

theorem tmp_transaction_raise {α : Type} (tx : Nat)
    (body : SessionState → SessionState × α × Bool) (s : SessionState)
    (h : (body { s with transaction := some tx }).2.2 = true) :
    _tmp_transaction tx body s = body { s with transaction := some tx } := by
  unfold _tmp_transaction
  rcases hb : body { s with transaction := some tx } with ⟨s1, out, x⟩
  rw [hb] at h
  have hx : x = true := h
  subst hx
  rfl

theorem do_after_commits_noraise (spec : HookSpec) (tx : Nat) (s : SessionState)
    (hnr : noRaise spec) (h : s.commit_objects.lock = true) :
    _do_after_commits spec tx s =
      ({ s with commit_objects :=
          { s.commit_objects with after := [], failed := [], lock := false } },
       keysCalls .after .insert s.commit_objects.after (s.commit_objects.after.map Prod.fst) ++
         (keysCalls .after .update s.commit_objects.after (s.commit_objects.after.map Prod.fst) ++
           keysCalls .after .delete s.commit_objects.after (s.commit_objects.after.map Prod.fst)),
       false) := by
  have hbody := do_commits_noraise spec .after { s with transaction := some tx } hnr h
  rw [_do_after_commits,
    tmp_transaction_ok tx (fun s1 => _do_commits spec .after s1) s (by simp [hbody])]
  simp only [hbody, passAbort, CommitObjects.bucket, CommitObjects.setBucket]

theorem bucketAdd_keys (b : Bucket) (e : Entity) (a : Action) :
    (bucketAdd b e a).map Prod.fst =
      if e ∈ b.map Prod.fst then b.map Prod.fst else b.map Prod.fst ++ [e] := by
  induction b with
  | nil => simp [bucketAdd]
  | cons x rest ih =>
    obtain ⟨e0, s0⟩ := x
    by_cases hc : e = e0
    · subst hc; simp [bucketAdd]
    · by_cases hm : e ∈ rest.map Prod.fst <;>
        simp [bucketAdd, hc, ih, hm]

theorem bucketAdd_wf (b : Bucket) (e : Entity) (a : Action) (hb : WFBucket b) :
    WFBucket (bucketAdd b e a) := by
  unfold WFBucket at *
  rw [bucketAdd_keys]
  by_cases hm : e ∈ b.map Prod.fst
  · simpa [hm] using hb
  · simp only [hm, if_false]
    simp [List.nodup_append, hb, hm]

theorem add_before_wf (s : SessionState) (e : Entity) (a : Action)
    (hs : WFSession s) : WFSession (_add_before_commit_object s e a) := by
  obtain ⟨h1, h2, h3, h4⟩ := hs
  cases h : s.commit_objects.lock
  · simp only [_add_before_commit_object, h, Bool.false_eq_true, if_false]
    exact ⟨by simpa [h] using h1, bucketAdd_wf _ _ _ h2, h3, h4⟩
  · rw [add_before_locked s e a h]
    exact ⟨h1, h2, h3, h4⟩

theorem add_after_wf (s : SessionState) (e : Entity) (a : Action)
    (hs : WFSession s) : WFSession (_add_after_commit_object s e a) := by
  obtain ⟨h1, h2, h3, h4⟩ := hs
  cases h : s.commit_objects.lock
  · simp only [_add_after_commit_object, h, Bool.false_eq_true, if_false]
    exact ⟨by simpa [h] using h1, h2, bucketAdd_wf _ _ _ h3, h4⟩
  · rw [add_after_locked s e a h]
    exact ⟨h1, h2, h3, h4⟩

theorem add_failed_wf (s : SessionState) (e : Entity) (a : Action)
    (hs : WFSession s) : WFSession (_add_failed_commit_object s e a) := by
  obtain ⟨h1, h2, h3, h4⟩ := hs
  cases h : s.commit_objects.lock
  · simp only [_add_failed_commit_object, h, Bool.false_eq_true, if_false]
    exact ⟨by simpa [h] using h1, h2, h3, bucketAdd_wf _ _ _ h4⟩
  · rw [add_failed_locked s e a h]
    exact ⟨h1, h2, h3, h4⟩

theorem applyWrite_wf (s : SessionState) (w : Phase × Entity × Action)
    (hs : WFSession s) : WFSession (applyWrite s w) := by
  obtain ⟨p, e, a⟩ := w
  cases p
  · exact add_before_wf s e a hs
  · exact add_after_wf s e a hs
  · exact add_failed_wf s e a hs

theorem runWrites_wf (ws : List (Phase × Entity × Action)) (s : SessionState)
    (hs : WFSession s) : WFSession (runWrites s ws) := by
  induction ws generalizing s with
  | nil => exact hs
  | cons w ws ih => exact ih (applyWrite s w) (applyWrite_wf s w hs)

theorem add_before_buckets (s : SessionState) (e : Entity) (a : Action)
    (hs : WFBuckets s) : WFBuckets (_add_before_commit_object s e a) := by
  obtain ⟨h1, h2, h3⟩ := hs
  cases h : s.commit_objects.lock
  · simp only [_add_before_commit_object, h, Bool.false_eq_true, if_false]
    exact ⟨bucketAdd_wf _ _ _ h1, h2, h3⟩
  · rw [add_before_locked s e a h]; exact ⟨h1, h2, h3⟩

theorem add_after_buckets (s : SessionState) (e : Entity) (a : Action)
    (hs : WFBuckets s) : WFBuckets (_add_after_commit_object s e a) := by
  obtain ⟨h1, h2, h3⟩ := hs
  cases h : s.commit_objects.lock
  · simp only [_add_after_commit_object, h, Bool.false_eq_true, if_false]
    exact ⟨h1, bucketAdd_wf _ _ _ h2, h3⟩
  · rw [add_after_locked s e a h]; exact ⟨h1, h2, h3⟩

theorem add_failed_buckets (s : SessionState) (e : Entity) (a : Action)
    (hs : WFBuckets s) : WFBuckets (_add_failed_commit_object s e a) := by
  obtain ⟨h1, h2, h3⟩ := hs
  cases h : s.commit_objects.lock
  · simp only [_add_failed_commit_object, h, Bool.false_eq_true, if_false]
    exact ⟨h1, h2, bucketAdd_wf _ _ _ h3⟩
  · rw [add_failed_locked s e a h]; exact ⟨h1, h2, h3⟩

theorem applyWrite_buckets (s : SessionState) (w : Phase × Entity × Action)
    (hs : WFBuckets s) : WFBuckets (applyWrite s w) := by
  obtain ⟨p, e, a⟩ := w
  cases p
  · exact add_before_buckets s e a hs
  · exact add_after_buckets s e a hs
  · exact add_failed_buckets s e a hs

theorem add_before_fields (s : SessionState) (e : Entity) (a : Action) :
    (_add_before_commit_object s e a).commit_objects.lock = s.commit_objects.lock ∧
    (_add_before_commit_object s e a).after_failed_commit_active =
      s.after_failed_commit_active := by
  unfold _add_before_commit_object
  split <;> exact ⟨rfl, rfl⟩

theorem add_after_fields (s : SessionState) (e : Entity) (a : Action) :
    (_add_after_commit_object s e a).commit_objects.lock = s.commit_objects.lock ∧
    (_add_after_commit_object s e a).after_failed_commit_active =
      s.after_failed_commit_active := by
  unfold _add_after_commit_object
  split <;> exact ⟨rfl, rfl⟩

theorem add_failed_fields (s : SessionState) (e : Entity) (a : Action) :
    (_add_failed_commit_object s e a).commit_objects.lock = s.commit_objects.lock ∧
    (_add_failed_commit_object s e a).after_failed_commit_active =
      s.after_failed_commit_active := by
  unfold _add_failed_commit_object
  split <;> exact ⟨rfl, rfl⟩

theorem applyWrite_fields (s : SessionState) (w : Phase × Entity × Action) :
    (applyWrite s w).commit_objects.lock = s.commit_objects.lock ∧
    (applyWrite s w).after_failed_commit_active = s.after_failed_commit_active := by
  obtain ⟨p, e, a⟩ := w
  cases p
  · exact add_before_fields s e a
  · exact add_after_fields s e a
  · exact add_failed_fields s e a

theorem runWrites_buckets (ws : List (Phase × Entity × Action)) (s : SessionState)
    (hs : WFBuckets s) : WFBuckets (runWrites s ws) := by
  induction ws generalizing s with
  | nil => exact hs
  | cons w ws ih => exact ih (applyWrite s w) (applyWrite_buckets s w hs)

theorem runWrites_fields (ws : List (Phase × Entity × Action)) (s : SessionState) :
    (runWrites s ws).commit_objects.lock = s.commit_objects.lock ∧
    (runWrites s ws).after_failed_commit_active = s.after_failed_commit_active := by
  induction ws generalizing s with
  | nil => exact ⟨rfl, rfl⟩
  | cons w ws ih =>
    obtain ⟨ih1, ih2⟩ := ih (applyWrite s w)
    obtain ⟨hf1, hf2⟩ := applyWrite_fields s w
    exact ⟨ih1.trans hf1, ih2.trans hf2⟩

theorem dispatchKind_shape (spec : HookSpec) (p : Phase) (a : Action) :
    ∀ (keys : List Entity) (s : SessionState) (tr : List HookCall),
      (WFBuckets s → WFBuckets (dispatchKind spec p a keys s tr).1) ∧
      (dispatchKind spec p a keys s tr).1.commit_objects.lock = s.commit_objects.lock ∧
      (dispatchKind spec p a keys s tr).1.after_failed_commit_active =
        s.after_failed_commit_active := by
  intro keys
  induction keys with
  | nil => intro s tr; exact ⟨fun h => h, rfl, rfl⟩
  | cons e rest ih =>
    intro s tr
    by_cases hc : a ∈ bucketFind (s.commit_objects.bucket p) e
    · by_cases hraise : (spec p e a).raises = true
      · have hred : dispatchKind spec p a (e :: rest) s tr =
            (runWrites s (spec p e a).writes, tr ++ [⟨p, e, a⟩], true) := by
          simp [dispatchKind, hc, hraise]
        rw [hred]
        obtain ⟨hf1, hf2⟩ := runWrites_fields (spec p e a).writes s
        exact ⟨fun h => runWrites_buckets _ s h, hf1, hf2⟩
      · have hr : (spec p e a).raises = false := by
          cases hb : (spec p e a).raises
          · rfl
          · exact absurd hb hraise
        have hred : dispatchKind spec p a (e :: rest) s tr =
            dispatchKind spec p a rest (runWrites s (spec p e a).writes)
              (tr ++ [⟨p, e, a⟩]) := by
          simp [dispatchKind, hc, hr]
        rw [hred]
        obtain ⟨ih1, ih2, ih3⟩ := ih (runWrites s (spec p e a).writes) (tr ++ [⟨p, e, a⟩])
        obtain ⟨hf1, hf2⟩ := runWrites_fields (spec p e a).writes s
        exact ⟨fun h => ih1 (runWrites_buckets _ s h), ih2.trans hf1, ih3.trans hf2⟩
    · have hred : dispatchKind spec p a (e :: rest) s tr =
          dispatchKind spec p a rest s tr := by
        simp [dispatchKind, hc]
      rw [hred]
      exact ih s tr

theorem clear_buckets (s : SessionState) (time : Phase) (hs : WFBuckets s) :
    WFBuckets { s with commit_objects := s.commit_objects.setBucket time [] } := by
  obtain ⟨h1, h2, h3⟩ := hs
  cases time
  · exact ⟨by simp [WFBucket, CommitObjects.setBucket], h2, h3⟩
  · exact ⟨h1, by simp [WFBucket, CommitObjects.setBucket], h3⟩
  · exact ⟨h1, h2, by simp [WFBucket, CommitObjects.setBucket]⟩

theorem setBucket_lock (c : CommitObjects) (time : Phase) (b : Bucket) :
    (c.setBucket time b).lock = c.lock := by
  cases time <;> rfl

theorem do_commits_shape (spec : HookSpec) (time : Phase) (s : SessionState) :
    (WFBuckets s → WFBuckets (_do_commits spec time s).1) ∧
    (_do_commits spec time s).1.commit_objects.lock = s.commit_objects.lock ∧
    (_do_commits spec time s).1.after_failed_commit_active =
      s.after_failed_commit_active := by
  obtain ⟨A1, A2, A3⟩ := dispatchKind_shape spec time .insert
    ((s.commit_objects.bucket time).map Prod.fst) s []
  rw [_do_commits]
  generalize hR1 : dispatchKind spec time .insert
    ((s.commit_objects.bucket time).map Prod.fst) s [] = R1 at A1 A2 A3 ⊢
  rcases R1 with ⟨s1, t1, x1⟩
  cases x1
  · simp only [passAbort]
    obtain ⟨B1, B2, B3⟩ := dispatchKind_shape spec time .update
      ((s1.commit_objects.bucket time).map Prod.fst) s1 t1
    generalize hR2 : dispatchKind spec time .update
      ((s1.commit_objects.bucket time).map Prod.fst) s1 t1 = R2 at B1 B2 B3 ⊢
    rcases R2 with ⟨s2, t2, x2⟩
    cases x2
    · simp only [passAbort]
      obtain ⟨C1, C2, C3⟩ := dispatchKind_shape spec time .delete
        ((s2.commit_objects.bucket time).map Prod.fst) s2 t2
      generalize hR3 : dispatchKind spec time .delete
        ((s2.commit_objects.bucket time).map Prod.fst) s2 t2 = R3 at C1 C2 C3 ⊢
      rcases R3 with ⟨s3, t3, x3⟩
      cases x3
      · simp only [passAbort]
        refine ⟨fun h => clear_buckets s3 time (C1 (B1 (A1 h))), ?_, ?_⟩
        · show (s3.commit_objects.setBucket time []).lock = s.commit_objects.lock
          rw [setBucket_lock]
          exact C2.trans (B2.trans A2)
        · show s3.after_failed_commit_active = s.after_failed_commit_active
          exact C3.trans (B3.trans A3)
      · simp only [passAbort]
        exact ⟨fun h => C1 (B1 (A1 h)), C2.trans (B2.trans A2), C3.trans (B3.trans A3)⟩
    · simp only [passAbort]
      exact ⟨fun h => B1 (A1 h), B2.trans A2, B3.trans A3⟩
  · simp only [passAbort]
    exact ⟨A1, A2, A3⟩

theorem false_of_ne_true {b : Bool} (h : ¬b = true) : b = false := by
  cases hb : b
  · rfl
  · exact absurd hb h

theorem tmp_transaction_proj {α : Type} (tx : Nat)
    (body : SessionState → SessionState × α × Bool) (s : SessionState) :
    (_tmp_transaction tx body s).2.2 = (body { s with transaction := some tx }).2.2 ∧
    (_tmp_transaction tx body s).2.1 = (body { s with transaction := some tx }).2.1 := by
  unfold _tmp_transaction
  rcases hb : body { s with transaction := some tx } with ⟨s1, out, x⟩
  cases x <;> simp

theorem do_after_commits_exc_false (spec : HookSpec) (tx : Nat) (s s1 : SessionState)
    (tr : List HookCall) (hstep : _do_after_commits spec tx s = (s1, tr, false))
    (hwf : WFBuckets s) :
    WFBuckets s1 ∧ s1.commit_objects.lock = false ∧
    s1.after_failed_commit_active = s.after_failed_commit_active := by
  rw [_do_after_commits] at hstep
  obtain ⟨hT1, hT2⟩ := tmp_transaction_proj tx (fun s2 => _do_commits spec .after s2) s
  by_cases hx : (_tmp_transaction tx (fun s2 => _do_commits spec .after s2) s).2.2 = true
  · rw [passAbort_eq, if_pos hx] at hstep
    have hcontra := congrArg (fun r => r.2.2) hstep
    simp at hcontra
  · have hxf : (_tmp_transaction tx (fun s2 => _do_commits spec .after s2) s).2.2 = false := by
      cases hb : (_tmp_transaction tx (fun s2 => _do_commits spec .after s2) s).2.2
      · rfl
      · exact absurd hb hx
    have hbodyf : ((fun s2 => _do_commits spec .after s2)
        { s with transaction := some tx }).2.2 = false := by
      rw [← hT1]; exact hxf
    have hTok := tmp_transaction_ok tx (fun s2 => _do_commits spec .after s2) s hbodyf
    rw [hTok, passAbort_eq, if_neg (by simp)] at hstep
    have hs1 : s1 = _ := (congrArg (fun r => r.1) hstep).symm
    obtain ⟨W1, W2, W3⟩ := do_commits_shape spec .after { s with transaction := some tx }
    have hwfb : WFBuckets (_do_commits spec .after { s with transaction := some tx }).1 :=
      W1 hwf
    have hact : (_do_commits spec .after { s with transaction := some tx
        }).1.after_failed_commit_active = s.after_failed_commit_active := W3
    subst hs1
    exact ⟨⟨hwfb.1, hwfb.2.1, by simp [WFBucket]⟩, rfl, hact⟩

theorem do_failed_commits_exc_false (spec : HookSpec) (tx : Nat) (s s1 : SessionState)
    (tr : List HookCall) (hstep : _do_failed_commits spec tx s = (s1, tr, false))
    (hwf : WFBuckets s) :
    WFBuckets s1 ∧ s1.commit_objects.lock = false ∧
    s1.after_failed_commit_active = s.after_failed_commit_active := by
  rw [_do_failed_commits] at hstep
  obtain ⟨hT1, hT2⟩ := tmp_transaction_proj tx (fun s2 => _do_commits spec .failed s2) s
  by_cases hx : (_tmp_transaction tx (fun s2 => _do_commits spec .failed s2) s).2.2 = true
  · rw [passAbort_eq, if_pos hx] at hstep
    have hcontra := congrArg (fun r => r.2.2) hstep
    simp at hcontra
  · have hxf : (_tmp_transaction tx (fun s2 => _do_commits spec .failed s2) s).2.2 = false := by
      cases hb : (_tmp_transaction tx (fun s2 => _do_commits spec .failed s2) s).2.2
      · rfl
      · exact absurd hb hx
    have hbodyf : ((fun s2 => _do_commits spec .failed s2)
        { s with transaction := some tx }).2.2 = false := by
      rw [← hT1]; exact hxf
    have hTok := tmp_transaction_ok tx (fun s2 => _do_commits spec .failed s2) s hbodyf
    rw [hTok, passAbort_eq, if_neg (by simp)] at hstep
    have hs1 : s1 = _ := (congrArg (fun r => r.1) hstep).symm
    obtain ⟨W1, W2, W3⟩ := do_commits_shape spec .failed { s with transaction := some tx }
    have hwfb : WFBuckets (_do_commits spec .failed { s with transaction := some tx }).1 :=
      W1 hwf
    have hact : (_do_commits spec .failed { s with transaction := some tx
        }).1.after_failed_commit_active = s.after_failed_commit_active := W3
    subst hs1
    exact ⟨⟨hwfb.1, by simp [WFBucket], hwfb.2.2⟩, rfl, hact⟩

theorem stepSignal_wf (spec : HookSpec) (s : SessionState) (sig : Signal)
    (s1 : SessionState) (tr : List HookCall)
    (hstep : stepSignal spec s sig = (s1, tr, false))
    (hs : WFSession s) : WFSession s1 := by
  obtain ⟨hEq, hB1, hB2, hB3⟩ := hs
  cases sig with
  | beforeCommit pending =>
    have hstep2 : _do_commits spec .before
        { runWrites s pending with
          after_failed_commit_active := true
          commit_objects := { (runWrites s pending).commit_objects with lock := true } }
        = (s1, tr, false) := hstep
    obtain ⟨W1, W2, W3⟩ := do_commits_shape spec .before
      { runWrites s pending with
        after_failed_commit_active := true
        commit_objects := { (runWrites s pending).commit_objects with lock := true } }
    rw [hstep2] at W1 W2 W3
    have hwb : WFBuckets (runWrites s pending) :=
      runWrites_buckets pending s ⟨hB1, hB2, hB3⟩
    have hwb1 : WFBuckets s1 := W1 hwb
    have hl : s1.commit_objects.lock = true := W2
    have ha : s1.after_failed_commit_active = true := W3
    exact ⟨ha.trans hl.symm, hwb1.1, hwb1.2.1, hwb1.2.2⟩
  | afterCommit tx =>
    have hstep2 : _do_after_commits spec tx { s with after_failed_commit_active := false }
        = (s1, tr, false) := hstep
    obtain ⟨hwb1, hl, ha⟩ := do_after_commits_exc_false spec tx
      { s with after_failed_commit_active := false } s1 tr hstep2 ⟨hB1, hB2, hB3⟩
    have ha2 : s1.after_failed_commit_active = false := ha
    exact ⟨ha2.trans hl.symm, hwb1.1, hwb1.2.1, hwb1.2.2⟩
  | afterSoftRollback tx =>
    rw [stepSignal, after_failed_commit] at hstep
    by_cases hact : s.after_failed_commit_active = true
    · rw [if_pos hact] at hstep
      rcases hF : _do_failed_commits spec tx s with ⟨F1, trF, xF⟩
      rw [hF] at hstep
      cases xF
      · simp only [passAbort] at hstep
        obtain ⟨hwb1, hl, -⟩ := do_failed_commits_exc_false spec tx s F1 trF hF
          ⟨hB1, hB2, hB3⟩
        have hs1 : s1 = { F1 with after_failed_commit_active := false } :=
          (congrArg (fun r => r.1) hstep).symm
        subst hs1
        exact ⟨hl.symm ▸ rfl, hwb1.1, hwb1.2.1, hwb1.2.2⟩
      · simp only [passAbort] at hstep
        have hcontra := congrArg (fun r => r.2.2) hstep
        simp at hcontra
    · rw [if_neg hact] at hstep
      have hs1 : s1 = { s with after_failed_commit_active := false } :=
        (congrArg (fun r => r.1) hstep).symm
      subst hs1
      have hafalse : s.after_failed_commit_active = false := false_of_ne_true hact
      have hlock : s.commit_objects.lock = false := by
        rw [← hEq]; exact hafalse
      exact ⟨by simp [hlock], hB1, hB2, hB3⟩

theorem runSignals_wf (spec : HookSpec) (sigs : List Signal) :
    ∀ s s1, runSignals spec sigs s = some s1 → WFSession s → WFSession s1 := by
  induction sigs with
  | nil =>
    intro s s1 h hs
    have : s = s1 := Option.some.inj h
    exact this ▸ hs
  | cons sig rest ih =>
    intro s s1 h hs
    rw [runSignals] at h
    rcases hstep : stepSignal spec s sig with ⟨s2, tr, x⟩
    rw [hstep] at h
    cases x
    · exact ih s2 s1 h (stepSignal_wf spec s sig s2 tr hstep hs)
    · simp at h

theorem init_wf : WFSession SessionState.init := by
  refine ⟨rfl, ?_, ?_, ?_⟩ <;> simp [WFBucket, SessionState.init, CommitObjects.init]

theorem reachable_wf (spec : HookSpec) (s : SessionState) (h : Reachable spec s) :
    WFSession s := by
  obtain ⟨sigs, hrun⟩ := h
  exact runSignals_wf spec sigs SessionState.init s hrun init_wf

theorem do_failed_commits_noraise (spec : HookSpec) (tx : Nat) (s : SessionState)
    (hnr : noRaise spec) (h : s.commit_objects.lock = true) :
    _do_failed_commits spec tx s =
      ({ s with commit_objects :=
          { s.commit_objects with after := [], failed := [], lock := false } },
       keysCalls .failed .insert s.commit_objects.failed (s.commit_objects.failed.map Prod.fst) ++
         (keysCalls .failed .update s.commit_objects.failed (s.commit_objects.failed.map Prod.fst) ++
           keysCalls .failed .delete s.commit_objects.failed (s.commit_objects.failed.map Prod.fst)),
       false) := by
  have hbody := do_commits_noraise spec .failed { s with transaction := some tx } hnr h
  rw [_do_failed_commits,
    tmp_transaction_ok tx (fun s1 => _do_commits spec .failed s1) s (by simp [hbody])]
  simp only [hbody, passAbort, CommitObjects.bucket, CommitObjects.setBucket]

theorem bucketAdd_idem (b : Bucket) (e : Entity) (a : Action) :
    bucketAdd (bucketAdd b e a) e a = bucketAdd b e a := by
  induction b with
  | nil => simp [bucketAdd]
  | cons x rest ih =>
    obtain ⟨e0, s0⟩ := x
    by_cases hc : e = e0
    · subst hc
      by_cases hm : a ∈ s0
      · simp [bucketAdd, hm]
      · simp [bucketAdd, hm]
    · simp [bucketAdd, hc, ih]

theorem addN_one (n : Nat) (hn : 1 ≤ n) (e : Entity) (a : Action) :
    addN n [] e a = [(e, [a])] := by
  induction n with
  | zero => cases hn
  | succ m ih =>
    cases m with
    | zero => simp [addN, bucketAdd]
    | succ k =>
      rw [addN, ih (Nat.succ_le_succ (Nat.zero_le k))]
      simp [bucketAdd]

theorem keysCalls_phase (p : Phase) (a : Action) (b : Bucket) (keys : List Entity) :
    ∀ c ∈ keysCalls p a b keys, c.phase = p := by
  intro c hc
  simp only [keysCalls, List.mem_map] at hc
  obtain ⟨e, -, rfl⟩ := hc
  rfl

theorem bucketCalls_phase (p : Phase) (a : Action) (b : Bucket) :
    ∀ c ∈ bucketCalls p a b, c.phase = p := by
  intro c hc
  simp only [bucketCalls, List.mem_map] at hc
  obtain ⟨x, -, rfl⟩ := hc
  rfl

theorem dispatchCalls_phase (p : Phase) (b : Bucket) :
    ∀ c ∈ dispatchCalls p b, c.phase = p := by
  intro c hc
  rw [dispatchCalls] at hc
  rcases List.mem_append.mp hc with h | h
  · rcases List.mem_append.mp h with h2 | h2
    · exact bucketCalls_phase p .insert b c h2
    · exact bucketCalls_phase p .update b c h2
  · exact bucketCalls_phase p .delete b c h

theorem before_commit_noraise (spec : HookSpec)
    (pending : List (Phase × Entity × Action)) (s : SessionState)
    (hnr : noRaise spec) :
    before_commit spec pending s =
      ({ runWrites s pending with
         after_failed_commit_active := true
         commit_objects := { (runWrites s pending).commit_objects with
                             lock := true
                             before := [] } },
       keysCalls .before .insert (runWrites s pending).commit_objects.before
           ((runWrites s pending).commit_objects.before.map Prod.fst) ++
         (keysCalls .before .update (runWrites s pending).commit_objects.before
             ((runWrites s pending).commit_objects.before.map Prod.fst) ++
           keysCalls .before .delete (runWrites s pending).commit_objects.before
             ((runWrites s pending).commit_objects.before.map Prod.fst)),
       false) :=
  do_commits_noraise spec .before
    { runWrites s pending with
      after_failed_commit_active := true
      commit_objects := { (runWrites s pending).commit_objects with lock := true } }
    hnr rfl

theorem after_commit_noraise (spec : HookSpec) (tx : Nat) (s : SessionState)
    (hnr : noRaise spec) (h : s.commit_objects.lock = true) :
    after_commit spec tx s =
      ({ s with
         after_failed_commit_active := false
         commit_objects := { s.commit_objects with after := [], failed := [], lock := false } },
       keysCalls .after .insert s.commit_objects.after (s.commit_objects.after.map Prod.fst) ++
         (keysCalls .after .update s.commit_objects.after (s.commit_objects.after.map Prod.fst) ++
           keysCalls .after .delete s.commit_objects.after (s.commit_objects.after.map Prod.fst)),
       false) :=
  do_after_commits_noraise spec tx { s with after_failed_commit_active := false } hnr h

theorem after_failed_commit_active_noraise (spec : HookSpec) (tx : Nat)
    (s : SessionState) (hnr : noRaise spec) (h : s.commit_objects.lock = true)
    (hact : s.after_failed_commit_active = true) :
    after_failed_commit spec tx s =
      ({ s with
         after_failed_commit_active := false
         commit_objects := { s.commit_objects with after := [], failed := [], lock := false } },
       keysCalls .failed .insert s.commit_objects.failed (s.commit_objects.failed.map Prod.fst) ++
         (keysCalls .failed .update s.commit_objects.failed (s.commit_objects.failed.map Prod.fst) ++
           keysCalls .failed .delete s.commit_objects.failed (s.commit_objects.failed.map Prod.fst)),
       false) := by
  rw [after_failed_commit, if_pos hact, do_failed_commits_noraise spec tx s hnr h]
  rfl

/-- C9: every default (unoverridden) hook body executes
`raise NotImplemented('Override to add hooks')`; the builtin `NotImplemented`
singleton is not callable, so evaluating the raise argument raises
`TypeError` — never `NotImplementedError`, which only a call of the class
`NotImplementedError` would have produced. -/
theorem c9_default_hooks (p : Phase) (a : Action) :
    default_hook p a = Except.error PyErr.typeError ∧
    default_hook p a ≠ Except.error (PyErr.raised "NotImplementedError") ∧
    pyRaise (pyCall (PyVal.excClass "NotImplementedError")
        (PyVal.str "Override to add hooks"))
      = Except.error (PyErr.raised "NotImplementedError") := by
  refine ⟨rfl, ?_, rfl⟩
  intro h
  exact PyErr.noConfusion (Except.error.inj h)

/-- C10: registering the same overridden hook again (as `__init_subclass__`
does once per subclass level) only installs a listener that re-records the
same (entity, kind) pair; recording is idempotent for each of the three
buckets, so the session state — and with it every `_do_commits` dispatch —
is unchanged by the duplicate, and each hook still fires once per
(entity, kind) per cycle. -/
theorem c10_duplicate_registration (s : SessionState) (e : Entity) (a : Action) :
    _add_before_commit_object (_add_before_commit_object s e a) e a =
      _add_before_commit_object s e a ∧
    _add_after_commit_object (_add_after_commit_object s e a) e a =
      _add_after_commit_object s e a ∧
    _add_failed_commit_object (_add_failed_commit_object s e a) e a =
      _add_failed_commit_object s e a ∧
    (∀ (spec : HookSpec) (p : Phase),
      _do_commits spec p (_add_before_commit_object (_add_before_commit_object s e a) e a) =
        _do_commits spec p (_add_before_commit_object s e a)) := by
  have hb : _add_before_commit_object (_add_before_commit_object s e a) e a =
      _add_before_commit_object s e a := by
    cases h : s.commit_objects.lock
    · simp [_add_before_commit_object, h, bucketAdd_idem]
    · rw [add_before_locked s e a h, add_before_locked s e a h]
  refine ⟨hb, ?_, ?_, fun spec p => by rw [hb]⟩
  · cases h : s.commit_objects.lock
    · simp [_add_after_commit_object, h, bucketAdd_idem]
    · rw [add_after_locked s e a h, add_after_locked s e a h]
  · cases h : s.commit_objects.lock
    · simp [_add_failed_commit_object, h, bucketAdd_idem]
    · rw [add_failed_locked s e a h, add_failed_locked s e a h]

/-- C6 counterexample: the mutation-event bridge with an unresolvable owning
session (`object_session` returns `None`) executes `getattr(None, ...)`,
which raises `AttributeError` — modelled as an `Except.error` — instead of
being the silent no-op the claim asserts. -/
theorem c6_counterexample :
    add_object Phase.before Action.insert OwningSession.noSession 0 =
      Except.error PyErr.attributeError := rfl

/-- C6 amended: the bridge raises `AttributeError` whenever the owning
session cannot be resolved or is a session without the mixin's recording
methods; only when the owning session is a tracking `SessionMixin` session
does the call succeed, and then it never errs (and is discarded when the
lock is held). -/
theorem c6_bridge (time : Phase) (action : Action) (obj : Entity) :
    add_object time action OwningSession.noSession obj =
      Except.error PyErr.attributeError ∧
    add_object time action OwningSession.plain obj =
      Except.error PyErr.attributeError ∧
    (∀ s : SessionState, ∃ s1 : SessionState,
      add_object time action (OwningSession.mixin s) obj = Except.ok s1) ∧
    (∀ s : SessionState, s.commit_objects.lock = true →
      add_object time action (OwningSession.mixin s) obj = Except.ok s) := by
  refine ⟨rfl, rfl, fun s => ?_, fun s h => ?_⟩
  · cases time
    · exact ⟨_, rfl⟩
    · exact ⟨_, rfl⟩
    · exact ⟨_, rfl⟩
  · cases time
    · simp [add_object, add_before_locked s obj action h]
    · simp [add_object, add_after_locked s obj action h]
    · simp [add_object, add_failed_locked s obj action h]

/-- Witness for C6: a concrete locked tracking session is returned unchanged
by the bridge, while a missing session yields the AttributeError. -/
theorem c6_bridge_witness :
    add_object Phase.after Action.update (OwningSession.mixin lockedState) 7 =
      Except.ok lockedState ∧
    add_object Phase.after Action.update OwningSession.noSession 7 =
      Except.error PyErr.attributeError :=
  ⟨(c6_bridge Phase.after Action.update 7).2.2.2 lockedState rfl,
   (c6_bridge Phase.after Action.update 7).1⟩

/-- C8 counterexample: with the session's transaction at handle 0, running
`_tmp_transaction` with fresh handle 1 around a body that raises leaves the
session's transaction at the temporary handle 1 while the exception
propagates: the original reference is not restored on the exception path,
because the context manager's generator has no try/finally around its
yield. -/
theorem c8_counterexample :
    (_tmp_transaction 1 c8Body c8State).1.transaction = some 1 ∧
    (_tmp_transaction 1 c8Body c8State).2.2 = true ∧
    c8State.transaction = some 0 := ⟨rfl, rfl, rfl⟩

/-- C8 amended: `_tmp_transaction` restores the session's original
transaction reference when the body completes normally; when the body raises,
the statement after the yield is skipped, so the session keeps whatever
transaction the body last had (the temporary handle unless the body changed
it) and the exception propagates. -/
theorem c8_tmp_transaction {α : Type} (tx : Nat)
    (body : SessionState → SessionState × α × Bool) (s : SessionState) :
    ((body { s with transaction := some tx }).2.2 = false →
      (_tmp_transaction tx body s).1.transaction = s.transaction ∧
      (_tmp_transaction tx body s).2.2 = false) ∧
    ((body { s with transaction := some tx }).2.2 = true →
      (_tmp_transaction tx body s).1 = (body { s with transaction := some tx }).1 ∧
      (_tmp_transaction tx body s).2.2 = true) := by
  constructor
  · intro h
    rw [tmp_transaction_ok tx body s h]
    exact ⟨rfl, rfl⟩
  · intro h
    rw [tmp_transaction_raise tx body s h]
    exact ⟨rfl, h⟩

/-- Witness for C8: on the normal path the original handle 0 is restored;
on the raising path the state is the body's state, still at handle 1. -/
theorem c8_tmp_transaction_witness :
    (_tmp_transaction 1 c8OkBody c8State).1.transaction = some 0 ∧
    (_tmp_transaction 1 c8Body c8State).1 = { c8State with transaction := some 1 } := by
  constructor
  · exact ((c8_tmp_transaction 1 c8OkBody c8State).1 rfl).1.trans rfl
  · exact ((c8_tmp_transaction 1 c8Body c8State).2 rfl).1

/-- C7: recording the same (entity, kind) pair N ≥ 1 times before dispatch
leaves a single bucket entry whose kind-set is the singleton of that kind,
and dispatching that bucket under the lock invokes the corresponding
`{phase}_commit_from_{kind}` hook exactly once. -/
theorem c7_dedup (spec : HookSpec) (p : Phase) (e : Entity) (a : Action)
    (n : Nat) (hn : 1 ≤ n) (hnr : noRaise spec) :
    addN n [] e a = [(e, [a])] ∧
    ((_do_commits spec p (mkDispatchState p (addN n [] e a))).2.1).count
      ⟨p, e, a⟩ = 1 := by
  have h1 := addN_one n hn e a
  refine ⟨h1, ?_⟩
  rw [h1]
  have hlock : (mkDispatchState p [(e, [a])]).commit_objects.lock = true := by
    cases p <;> rfl
  have hbucket : (mkDispatchState p [(e, [a])]).commit_objects.bucket p =
      [(e, [a])] := by
    cases p <;> rfl
  rw [do_commits_noraise spec p _ hnr hlock]
  dsimp only
  rw [hbucket]
  cases a <;>
    simp [keysCalls, bucketFind, List.lookup, List.count_cons, List.count_nil]

/-- C5 counterexample: with entities 1 and 2 both tracked for insert (1
first) and entity 1's hook raising, dispatch aborts after invoking entity 1
only — yet entity 1, although already processed, is still in the before
bucket afterwards, contradicting the claim that processed entities are gone:
the single `objects.clear()` at the end of `_do_commits` is skipped
entirely, so nothing is removed. -/
theorem c5_counterexample :
    (_do_commits raisingSpec Phase.before c5State).2.2 = true ∧
    (_do_commits raisingSpec Phase.before c5State).2.1 =
      [⟨Phase.before, 1, Action.insert⟩] ∧
    (_do_commits raisingSpec Phase.before c5State).1.commit_objects.before =
      [(1, [Action.insert]), (2, [Action.insert])] := by
  refine ⟨by decide, by decide, by decide⟩

/-- C5 amended: a raising hook propagates uncaught (the exception reaches
the caller of `_do_commits`), aborts the remaining dispatch — the recorded
trace is a prefix of the complete three-pass trace — and leaves the
dispatched bucket entirely uncleared: the session state, including the
entries of entities already processed, is exactly the pre-dispatch state. -/
theorem c5_hook_raise (spec : HookSpec) (p : Phase) (s : SessionState)
    (hlock : s.commit_objects.lock = true)
    (hexc : (_do_commits spec p s).2.2 = true) :
    (_do_commits spec p s).1 = s ∧
    (∃ rest,
      keysCalls p .insert (s.commit_objects.bucket p)
          ((s.commit_objects.bucket p).map Prod.fst) ++
        (keysCalls p .update (s.commit_objects.bucket p)
            ((s.commit_objects.bucket p).map Prod.fst) ++
          keysCalls p .delete (s.commit_objects.bucket p)
            ((s.commit_objects.bucket p).map Prod.fst)) =
      (_do_commits spec p s).2.1 ++ rest) := by
  obtain ⟨hA, -, hC⟩ := do_commits_locked spec p s hlock
  exact ⟨hA hexc, hC⟩

/-- Witness for C5 amended: the concrete aborted dispatch leaves the state
untouched. -/
theorem c5_hook_raise_witness :
    (_do_commits raisingSpec Phase.before c5State).1 = c5State :=
  (c5_hook_raise raisingSpec Phase.before c5State rfl (by decide)).1

/-- C1: while the ChangeRecord lock is set, every write through the three
`_add_*_commit_object` methods is silently discarded — the session state is
returned unchanged, with no error path — and a full successful commit cycle
(pre-commit signal followed by post-commit signal, with hooks that may
attempt writes but do not raise) completes without exception and ends with
every bucket empty, so no entry recorded during a hook's execution survives
in any bucket. -/
theorem c1_lock_discard :
    (∀ (s : SessionState) (e : Entity) (a : Action),
      s.commit_objects.lock = true →
      _add_before_commit_object s e a = s ∧
      _add_after_commit_object s e a = s ∧
      _add_failed_commit_object s e a = s) ∧
    (∀ (spec : HookSpec) (pending : List (Phase × Entity × Action)) (tx : Nat)
      (s : SessionState), noRaise spec →
      (before_commit spec pending s).2.2 = false ∧
      (after_commit spec tx (before_commit spec pending s).1).2.2 = false ∧
      (after_commit spec tx
        (before_commit spec pending s).1).1.commit_objects.before = [] ∧
      (after_commit spec tx
        (before_commit spec pending s).1).1.commit_objects.after = [] ∧
      (after_commit spec tx
        (before_commit spec pending s).1).1.commit_objects.failed = []) := by
  constructor
  · intro s e a h
    exact ⟨add_before_locked s e a h, add_after_locked s e a h,
      add_failed_locked s e a h⟩
  · intro spec pending tx s hnr
    rw [before_commit_noraise spec pending s hnr]
    dsimp only
    rw [after_commit_noraise spec tx
      { runWrites s pending with
        after_failed_commit_active := true
        commit_objects := { (runWrites s pending).commit_objects with
                            lock := true
                            before := [] } } hnr rfl]
    exact ⟨rfl, rfl, rfl, rfl, rfl⟩

/-- Witness for C1: a locked add is the identity, and a concrete full cycle
with hooks that attempt writes ends with the after bucket empty — the
attempted (99, update) entry is nowhere. -/
theorem c1_lock_discard_witness :
    _add_before_commit_object lockedState 5 Action.insert = lockedState ∧
    (after_commit chattySpec 7 (before_commit chattySpec
        [(Phase.before, 3, Action.insert), (Phase.after, 3, Action.insert)]
        SessionState.init).1).1.commit_objects.after = [] := by
  constructor
  · exact (c1_lock_discard.1 lockedState 5 Action.insert rfl).1
  · exact (c1_lock_discard.2 chattySpec
      [(Phase.before, 3, Action.insert), (Phase.after, 3, Action.insert)] 7
      SessionState.init (fun _ _ _ => rfl)).2.2.2.1

/-- Witness for C7: recording (4, update) three times dispatches the hook
exactly once. -/
theorem c7_dedup_witness :
    addN 3 [] 4 Action.update = [(4, [Action.update])] ∧
    ((_do_commits quietSpec Phase.after
        (mkDispatchState Phase.after (addN 3 [] 4 Action.update))).2.1).count
      ⟨Phase.after, 4, Action.update⟩ = 1 :=
  c7_dedup quietSpec Phase.after 4 Action.update 3 (by decide) (fun _ _ _ => rfl)

/-- C2: `_do_commits` dispatches in the fixed kind-priority order insert,
update, delete, iterating the bucket in insertion order within each kind:
its trace is the insert-pass calls, then the update-pass calls, then the
delete-pass calls; in particular any entity tracked for insert is invoked
strictly before any entity tracked for delete, regardless of which was added
to the bucket first. -/
theorem c2_dispatch_order (spec : HookSpec) (p : Phase) (s : SessionState)
    (hnr : noRaise spec) (hlock : s.commit_objects.lock = true)
    (hwf : WFBucket (s.commit_objects.bucket p)) :
    (_do_commits spec p s).2.1 = dispatchCalls p (s.commit_objects.bucket p) ∧
    (∀ e1 l1 e2 l2,
      (e1, l1) ∈ s.commit_objects.bucket p → Action.delete ∈ l1 →
      (e2, l2) ∈ s.commit_objects.bucket p → Action.insert ∈ l2 →
      ∃ i j, i < j ∧
        (_do_commits spec p s).2.1.get? i = some ⟨p, e2, Action.insert⟩ ∧
        (_do_commits spec p s).2.1.get? j = some ⟨p, e1, Action.delete⟩) := by
  have htr : (_do_commits spec p s).2.1 = dispatchCalls p (s.commit_objects.bucket p) := by
    rw [do_commits_noraise spec p s hnr hlock]
    dsimp only
    rw [keysCalls_self p .insert _ hwf, keysCalls_self p .update _ hwf,
      keysCalls_self p .delete _ hwf, dispatchCalls, List.append_assoc]
  refine ⟨htr, ?_⟩
  intro e1 l1 e2 l2 hm1 hd1 hm2 hi2
  rw [htr]
  have hc2 : (⟨p, e2, Action.insert⟩ : HookCall) ∈
      bucketCalls p .insert (s.commit_objects.bucket p) := by
    simp only [bucketCalls, List.mem_map, List.mem_filter]
    exact ⟨(e2, l2), ⟨hm2, by simpa using hi2⟩, rfl⟩
  have hc1 : (⟨p, e1, Action.delete⟩ : HookCall) ∈
      bucketCalls p .delete (s.commit_objects.bucket p) := by
    simp only [bucketCalls, List.mem_map, List.mem_filter]
    exact ⟨(e1, l1), ⟨hm1, by simpa using hd1⟩, rfl⟩
  obtain ⟨i, hi⟩ := List.get?_of_mem hc2
  obtain ⟨k, hk⟩ := List.get?_of_mem hc1
  have hilt : i < (bucketCalls p .insert (s.commit_objects.bucket p)).length := by
    rw [List.get?_eq_some] at hi
    exact hi.1
  refine ⟨i, (bucketCalls p .insert (s.commit_objects.bucket p)).length +
    ((bucketCalls p .update (s.commit_objects.bucket p)).length + k), by omega, ?_, ?_⟩
  · rw [dispatchCalls, List.append_assoc, List.get?_append hilt]
    exact hi
  · rw [dispatchCalls, List.append_assoc,
      List.get?_append_right (by omega),
      Nat.add_sub_cancel_left,
      List.get?_append_right (by omega),
      Nat.add_sub_cancel_left]
    exact hk

/-- Witness for C2: with entity 1 tracked for delete inserted first and
entity 2 tracked for insert inserted second, the trace is the insert call on
2 followed by the delete call on 1. -/
theorem c2_dispatch_order_witness :
    (_do_commits quietSpec Phase.before
        (mkDispatchState Phase.before
          [(1, [Action.delete]), (2, [Action.insert])])).2.1 =
      [⟨Phase.before, 2, Action.insert⟩, ⟨Phase.before, 1, Action.delete⟩] ∧
    (∃ i j, i < j ∧
      (_do_commits quietSpec Phase.before
          (mkDispatchState Phase.before
            [(1, [Action.delete]), (2, [Action.insert])])).2.1.get? i =
        some ⟨Phase.before, 2, Action.insert⟩ ∧
      (_do_commits quietSpec Phase.before
          (mkDispatchState Phase.before
            [(1, [Action.delete]), (2, [Action.insert])])).2.1.get? j =
        some ⟨Phase.before, 1, Action.delete⟩) := by
  have h := c2_dispatch_order quietSpec Phase.before
    (mkDispatchState Phase.before [(1, [Action.delete]), (2, [Action.insert])])
    (fun _ _ _ => rfl) rfl (by unfold WFBucket; decide)
  constructor
  · rw [h.1]; decide
  · exact h.2 1 [Action.delete] 2 [Action.insert] (by decide) (by decide)
      (by decide) (by decide)

theorem keysCalls_single (p : Phase) (x a : Action) (e : Entity) :
    keysCalls p x [(e, [a])] [e] = if x = a then [⟨p, e, x⟩] else [] := by
  have hfind : bucketFind [(e, [a])] e = [a] := by rw [bucketFind_cons, if_pos rfl]
  by_cases hx : x = a
  · subst hx; simp [keysCalls, hfind]
  · simp [keysCalls, hfind, hx]

/-- C3: on the post-commit signal the handler clears outcome-pending,
dispatches the after bucket (every call it makes is an after-phase call),
clears the failed bucket without dispatching it, and unlocks the
ChangeRecord; consequently, over a successful commit cycle of a single
insert-tracked entity, `before_commit_from_insert` and
`after_commit_from_insert` fire exactly once each, in that order, and no
failed-phase hook ever fires. -/
theorem c3_after_commit :
    (∀ (spec : HookSpec) (tx : Nat) (s : SessionState),
      noRaise spec → s.commit_objects.lock = true →
      WFBucket s.commit_objects.after →
      (after_commit spec tx s).2.2 = false ∧
      (after_commit spec tx s).1.after_failed_commit_active = false ∧
      (after_commit spec tx s).2.1 = dispatchCalls .after s.commit_objects.after ∧
      (∀ c ∈ (after_commit spec tx s).2.1, c.phase = Phase.after) ∧
      (after_commit spec tx s).1.commit_objects.failed = [] ∧
      (after_commit spec tx s).1.commit_objects.after = [] ∧
      (after_commit spec tx s).1.commit_objects.lock = false) ∧
    (∀ (spec : HookSpec) (tx : Nat) (e : Entity), noRaise spec →
      c3Cycle spec tx e =
        [⟨Phase.before, e, Action.insert⟩, ⟨Phase.after, e, Action.insert⟩] ∧
      (c3Cycle spec tx e).count ⟨Phase.before, e, Action.insert⟩ = 1 ∧
      (c3Cycle spec tx e).count ⟨Phase.after, e, Action.insert⟩ = 1 ∧
      ∀ a : Action, (⟨Phase.failed, e, a⟩ : HookCall) ∉ c3Cycle spec tx e) := by
  constructor
  · intro spec tx s hnr hlock hwf
    rw [after_commit_noraise spec tx s hnr hlock]
    dsimp only
    have htr : keysCalls .after .insert s.commit_objects.after
          (s.commit_objects.after.map Prod.fst) ++
        (keysCalls .after .update s.commit_objects.after
            (s.commit_objects.after.map Prod.fst) ++
          keysCalls .after .delete s.commit_objects.after
            (s.commit_objects.after.map Prod.fst)) =
        dispatchCalls .after s.commit_objects.after := by
      rw [keysCalls_self .after .insert _ hwf, keysCalls_self .after .update _ hwf,
        keysCalls_self .after .delete _ hwf, dispatchCalls, List.append_assoc]
    refine ⟨rfl, rfl, htr, ?_, rfl, rfl, rfl⟩
    intro c hc
    rw [htr] at hc
    exact dispatchCalls_phase .after _ c hc
  · intro spec tx e hnr
    have hrw : runWrites SessionState.init (insertPending e) =
        { commit_objects :=
            { lock := false
              before := [(e, [Action.insert])]
              after := [(e, [Action.insert])]
              failed := [(e, [Action.insert])] }
          after_failed_commit_active := false
          transaction := none } := rfl
    have h1 := before_commit_noraise spec (insertPending e) SessionState.init hnr
    rw [hrw] at h1
    have hT1 : (before_commit spec (insertPending e) SessionState.init).2.1 =
        [⟨Phase.before, e, Action.insert⟩] := by
      rw [h1]
      dsimp only
      rw [show (List.map Prod.fst [(e, [Action.insert])]) = [e] from rfl]
      rw [keysCalls_single, keysCalls_single, keysCalls_single]
      simp
    have hS1 : (before_commit spec (insertPending e) SessionState.init).1 =
        { commit_objects :=
            { lock := true
              before := []
              after := [(e, [Action.insert])]
              failed := [(e, [Action.insert])] }
          after_failed_commit_active := true
          transaction := none } := by
      rw [h1]
    have h2 := after_commit_noraise spec tx
      { commit_objects :=
          { lock := true
            before := []
            after := [(e, [Action.insert])]
            failed := [(e, [Action.insert])] }
        after_failed_commit_active := true
        transaction := none } hnr rfl
    have hT2 : (after_commit spec tx
        (before_commit spec (insertPending e) SessionState.init).1).2.1 =
        [⟨Phase.after, e, Action.insert⟩] := by
      rw [hS1, h2]
      dsimp only
      rw [show (List.map Prod.fst [(e, [Action.insert])]) = [e] from rfl]
      rw [keysCalls_single, keysCalls_single, keysCalls_single]
      simp
    have hCyc : c3Cycle spec tx e =
        [⟨Phase.before, e, Action.insert⟩, ⟨Phase.after, e, Action.insert⟩] := by
      rw [c3Cycle, hT1, hT2]
      rfl
    refine ⟨hCyc, ?_, ?_, ?_⟩
    · rw [hCyc]; simp [List.count_cons]
    · rw [hCyc]; simp [List.count_cons]
    · intro a
      rw [hCyc]
      simp

/-- Witness for C3: a concrete successful cycle of entity 5, and the unlock
on a concrete locked state. -/
theorem c3_after_commit_witness :
    (after_commit quietSpec 7 lockedState).1.commit_objects.lock = false ∧
    c3Cycle quietSpec 7 5 =
      [⟨Phase.before, 5, Action.insert⟩, ⟨Phase.after, 5, Action.insert⟩] := by
  constructor
  · exact (c3_after_commit.1 quietSpec 7 lockedState (fun _ _ _ => rfl) rfl
      (by unfold WFBucket; decide)).2.2.2.2.2.2
  · exact (c3_after_commit.2 quietSpec 7 5 (fun _ _ _ => rfl)).1

/-- C4: on the rollback signal the failed bucket is dispatched exactly when
outcome-pending was set — in which case every call made is a failed-phase
call and the after bucket is cleared without dispatch — and for every
reachable session state (including a rollback before any commit attempt,
where nothing is dispatched) the handler leaves outcome-pending cleared and
the ChangeRecord lock unset. -/
theorem c4_rollback (spec : HookSpec) (tx : Nat) (s : SessionState)
    (hnr : noRaise spec) (hreach : Reachable spec s) :
    (after_failed_commit spec tx s).2.2 = false ∧
    (after_failed_commit spec tx s).1.after_failed_commit_active = false ∧
    (after_failed_commit spec tx s).1.commit_objects.lock = false ∧
    (s.after_failed_commit_active = false →
      (after_failed_commit spec tx s).2.1 = [] ∧
      (after_failed_commit spec tx s).1 =
        { s with after_failed_commit_active := false }) ∧
    (s.after_failed_commit_active = true →
      (after_failed_commit spec tx s).2.1 =
        dispatchCalls .failed s.commit_objects.failed ∧
      (∀ c ∈ (after_failed_commit spec tx s).2.1, c.phase = Phase.failed) ∧
      (after_failed_commit spec tx s).1.commit_objects.after = [] ∧
      (after_failed_commit spec tx s).1.commit_objects.failed = []) := by
  obtain ⟨hEq, hB1, hB2, hB3⟩ := reachable_wf spec s hreach
  cases hact : s.after_failed_commit_active
  · have hlock : s.commit_objects.lock = false := by rw [← hEq]; exact hact
    have hred : after_failed_commit spec tx s =
        ({ s with after_failed_commit_active := false }, [], false) := by
      rw [after_failed_commit, if_neg (by simp [hact])]
    rw [hred]
    exact ⟨rfl, rfl, hlock, fun _ => ⟨rfl, rfl⟩,
      fun hcontra => by simp [hact] at hcontra⟩
  · have hlock : s.commit_objects.lock = true := by rw [← hEq]; exact hact
    have hred := after_failed_commit_active_noraise spec tx s hnr hlock hact
    rw [hred]
    have htr : keysCalls .failed .insert s.commit_objects.failed
          (s.commit_objects.failed.map Prod.fst) ++
        (keysCalls .failed .update s.commit_objects.failed
            (s.commit_objects.failed.map Prod.fst) ++
          keysCalls .failed .delete s.commit_objects.failed
            (s.commit_objects.failed.map Prod.fst)) =
        dispatchCalls .failed s.commit_objects.failed := by
      rw [keysCalls_self .failed .insert _ hB3, keysCalls_self .failed .update _ hB3,
        keysCalls_self .failed .delete _ hB3, dispatchCalls, List.append_assoc]
    refine ⟨rfl, rfl, rfl, fun hcontra => by simp [hact] at hcontra,
      fun _ => ⟨htr, ?_, rfl, rfl⟩⟩
    intro c hc
    dsimp only at hc
    rw [htr] at hc
    exact dispatchCalls_phase .failed _ c hc

/-- Witness for C4: from the reachable post-before state with entity 3
tracked in the failed bucket, the rollback handler unlocks and dispatches
exactly the failed-phase call on 3. -/
theorem c4_rollback_witness :
    (after_failed_commit quietSpec 7 c4State).1.commit_objects.lock = false ∧
    (after_failed_commit quietSpec 7 c4State).2.1 =
      [⟨Phase.failed, 3, Action.insert⟩] := by
  have hreach : Reachable quietSpec c4State :=
    ⟨[Signal.beforeCommit [(Phase.failed, 3, Action.insert)]], by decide⟩
  have h := c4_rollback quietSpec 7 c4State (fun _ _ _ => rfl) hreach
  refine ⟨h.2.2.1, ?_⟩
  rw [(h.2.2.2.2 rfl).1]
  decide

/-- Witness for C9: a concrete default hook evaluates to TypeError. -/
theorem c9_default_hooks_witness :
    default_hook Phase.before Action.insert = Except.error PyErr.typeError :=
  (c9_default_hooks Phase.before Action.insert).1

/-- Witness for C10: the duplicate record of (2, update) on a fresh session
is the same state as a single record. -/
theorem c10_duplicate_registration_witness :
    _add_after_commit_object
        (_add_after_commit_object SessionState.init 2 Action.update) 2 Action.update =
      _add_after_commit_object SessionState.init 2 Action.update :=
  (c10_duplicate_registration SessionState.init 2 Action.update).2.1

end CommitHooks
